import Mathlib

/-!
Verification of the Game-of-Life grid engine (`src/universe.rs`).

Shallow embedding of the cellular-automaton core: the `Cell` state, the
`Universe` grid (flat row-major buffer plus dimensions), neighbour counting
with toroidal wraparound, the `tick` transition, seeding (`set_cells`),
destructive resize (`set_width` / `set_height`) and `render`.

Machine `u32` values are modelled as `Nat`; the fallible buffer indexing of
`set_cells` (a Rust panic on an out-of-range index) is modelled in `Option`.
Buffer reads inside `live_neighbour_count` and `tick` use `List.getD` with a
`Dead` default; the theorems only use them at indices proved in range, where
`getD` agrees with the Rust access.
-/

/-- Cell state: `Dead = 0`, `Alive = 1` (`#[repr(u8)]`). -/
inductive Cell where
  | Dead : Cell
  | Alive : Cell
deriving DecidableEq, Repr

/-- The `Cell as usize` cast: the `u8` discriminant of the state. -/
def cellVal : Cell → Nat
  | Cell.Dead => 0
  | Cell.Alive => 1

/-- The `Universe` struct: `width`, `height` and the flat row-major buffer. -/
structure Universe where
  width : Nat
  height : Nat
  cells : List Cell
deriving DecidableEq, Repr

/-- The `iproduct!` macro on two lists: all pairs, left index major. -/
def iproduct (xs ys : List Nat) : List (Nat × Nat) :=
  xs.flatMap (fun x => ys.map (fun y => (x, y)))

namespace Universe

/-- Flat row-major index, `Universe::get_index`: `row * self.width +
column`. -/
def get_index (u : Universe) (row column : Nat) : Nat :=
  row * u.width + column

/-- Neighbour counting, `Universe::live_neighbour_count`: iterate the offset pairs
`iproduct!([height-1, 0, 1], [width-1, 0, 1])`, drop the literal `(0, 0)`
pair, wrap each offset plus the coordinate modulo the dimension, and sum the
cell values. -/
def live_neighbour_count (u : Universe) (row column : Nat) : Nat :=
  (((iproduct [u.height - 1, 0, 1] [u.width - 1, 0, 1]).filter
      (fun p => p.1 != 0 || p.2 != 0)).map
      (fun p => cellVal (u.cells.getD
        (u.get_index ((p.1 + row) % u.height) ((p.2 + column) % u.width))
        Cell.Dead))).foldl (· + ·) 0

/-- The `match (cell, nbr_cnt)` arms inside `Universe::tick`, in source
order: `(Alive, x) if x < 2 => Dead`, `(Alive, 2) | (Alive, 3) => Alive`,
`(Alive, x) if x > 3 => Dead`, `(Dead, 3) => Alive`,
`(otherwise, _) => otherwise`. -/
def nextCell (cell : Cell) (n : Nat) : Cell :=
  if cell = Cell.Alive ∧ n < 2 then Cell.Dead
  else if (cell = Cell.Alive ∧ n = 2) ∨ (cell = Cell.Alive ∧ n = 3) then Cell.Alive
  else if cell = Cell.Alive ∧ 3 < n then Cell.Dead
  else if cell = Cell.Dead ∧ n = 3 then Cell.Alive
  else cell

/-- One generation step, `Universe::tick`: build the next buffer over `iproduct!(0..height,
0..width)` from the pre-tick cell and its pre-tick neighbour count, then
replace `self.cells` with it. -/
def tick (u : Universe) : Universe :=
  { u with cells :=
      (List.range u.height).flatMap (fun row =>
        (List.range u.width).map (fun col =>
          nextCell (u.cells.getD (u.get_index row col) Cell.Dead)
            (u.live_neighbour_count row col))) }

/-- Destructive width resize, `Universe::set_width`: reassign the width and reset every cell of the
reallocated `(0..width * self.height)` buffer to `Dead`. -/
def set_width (u : Universe) (width : Nat) : Universe :=
  { u with width := width,
           cells := (List.range (width * u.height)).map (fun _ => Cell.Dead) }

/-- Destructive height resize, `Universe::set_height`: reassign the height and reset every cell of the
reallocated `(0..self.width * height)` buffer to `Dead`. -/
def set_height (u : Universe) (height : Nat) : Universe :=
  { u with height := height,
           cells := (List.range (u.width * height)).map (fun _ => Cell.Dead) }

/-- Pattern seeding, `Universe::set_cells`: for each `(r, c)` in order, write `Alive` at flat
index `get_index r c`; the Rust `self.cells[idx] = Alive` panics when `idx`
is out of range, modelled as `none`. -/
def set_cells (u : Universe) (coords : List (Nat × Nat)) : Option Universe :=
  coords.foldlM (fun v p =>
    if v.get_index p.1 p.2 < v.cells.length then
      some { v with cells := v.cells.set (v.get_index p.1 p.2) Cell.Alive }
    else none) u

/-- The glyph choice of `impl fmt::Display for Universe`. -/
def glyph (cell : Cell) : Char :=
  if cell = Cell.Dead then '◻' else '◼'

/-- Row splitting, `slice::chunks`: split the buffer into consecutive runs of `w` elements
(the last may be shorter). The Rust call panics for `w = 0`; that case is
never reached under the claims' `width > 0` hypothesis. -/
def chunks (w : Nat) : List Cell → List (List Cell)
  | [] => []
  | x :: xs =>
    if h : w = 0 then [x :: xs]
    else (x :: xs).take w :: chunks w ((x :: xs).drop w)
termination_by l => l.length
decreasing_by
  cases w with
  | zero => exact absurd rfl h
  | succ n => simp [List.length_drop]; omega

/-- Rendering, `Universe::render` via the `Display` impl: one line of glyphs per
width-sized chunk of the buffer, each line terminated by `"\n"`. -/
def render (u : Universe) : String :=
  String.join ((chunks u.width u.cells).map (fun line =>
    String.mk (line.map glyph) ++ "\n"))

end Universe

/-- The B3/S23 transition rule as the spec's table states it: an `Alive`
cell with fewer than 2 live neighbours dies, with 2 or 3 survives, with more
than 3 dies; a `Dead` cell with exactly 3 live neighbours becomes `Alive`,
any other `Dead` cell stays `Dead`. -/
def specRule (cell : Cell) (n : Nat) : Cell :=
  match cell with
  | Cell.Alive =>
      if n < 2 then Cell.Dead
      else if n = 2 ∨ n = 3 then Cell.Alive
      else Cell.Dead
  | Cell.Dead => if n = 3 then Cell.Alive else Cell.Dead

/-- Spec-side neighbour count, written from the spec's words for comparison
with `Universe.live_neighbour_count`: the sum of the cell values at the 8
Moore-neighbour offsets (`-1` taken as `height - 1` / `width - 1`), with row
and column arithmetic modulo `height` and `width`, the `(0, 0)` offset (the
cell itself) excluded. -/
def mooreNeighbourCount (u : Universe) (row column : Nat) : Nat :=
  ([(u.height - 1, u.width - 1), (u.height - 1, 0), (u.height - 1, 1),
    (0, u.width - 1), (0, 1),
    (1, u.width - 1), (1, 0), (1, 1)].map
      (fun p : Nat × Nat => cellVal (u.cells.getD
        (u.get_index ((p.1 + row) % u.height) ((p.2 + column) % u.width))
        Cell.Dead))).sum

/-- The 5×5 fixture `tests::get_universe`. -/
def testUniverse : Universe :=
  { width := 5, height := 5,
    cells := [
      Cell.Dead,  Cell.Dead,  Cell.Dead,  Cell.Dead,  Cell.Dead,
      Cell.Alive, Cell.Dead,  Cell.Alive, Cell.Dead,  Cell.Dead,
      Cell.Dead,  Cell.Dead,  Cell.Alive, Cell.Dead,  Cell.Dead,
      Cell.Dead,  Cell.Dead,  Cell.Alive, Cell.Dead,  Cell.Dead,
      Cell.Dead,  Cell.Dead,  Cell.Dead,  Cell.Dead,  Cell.Alive] }

/-- A 3-wide, 1-tall universe with a single live cell, exhibiting the
degenerate-height behaviour of `live_neighbour_count`. -/
def flatRowUniverse : Universe :=
  { width := 3, height := 1, cells := [Cell.Alive, Cell.Dead, Cell.Dead] }

/-- A 5×5 all-dead universe. -/
def deadFive : Universe :=
  { width := 5, height := 5, cells := List.replicate 25 Cell.Dead }

/-- A 4×4 universe whose only live cells are the 2×2 block at rows 1–2,
columns 1–2. -/
def blockFour : Universe :=
  { width := 4, height := 4,
    cells := [
      Cell.Dead, Cell.Dead,  Cell.Dead,  Cell.Dead,
      Cell.Dead, Cell.Alive, Cell.Alive, Cell.Dead,
      Cell.Dead, Cell.Alive, Cell.Alive, Cell.Dead,
      Cell.Dead, Cell.Dead,  Cell.Dead,  Cell.Dead] }

/-- A universe with zero height and an empty buffer. -/
def emptyUniverse : Universe :=
  { width := 5, height := 0, cells := [] }

/-- A 2×2 universe with live cells on the main diagonal. -/
def twoByTwo : Universe :=
  { width := 2, height := 2,
    cells := [Cell.Alive, Cell.Dead, Cell.Dead, Cell.Alive] }

/-- Indicator that a coordinate lies in the two-wide band `{r, r + 1}`
(used to describe a 2×2 block's rows and columns). -/
def hitInd (r v : Nat) : Nat := if v = r ∨ v = r + 1 then 1 else 0

section RowMajor

/-- Length of a row-major `flatMap`/`map` build over `0..h × 0..w`. -/
theorem rowMajor_length (h w : Nat) (f : Nat → Nat → Cell) :
    ((List.range h).flatMap (fun row => (List.range w).map (f row))).length
      = h * w := by
  rw [List.length_flatMap]
  induction h with
  | zero => simp
  | succ n ih => rw [List.range_succ]; simp_all [Nat.succ_mul]

/-- Element `(row, col)` of a row-major build sits at flat index
`row * w + col`. -/
theorem rowMajor_getElem? :
    ∀ (row : Nat) (f : Nat → Nat → Cell) (h w col : Nat), row < h → col < w →
      ((List.range h).flatMap
        (fun r => (List.range w).map (fun c => f r c)))[row * w + col]? =
        some (f row col) := by
  intro row
  induction row with
  | zero =>
    intro f h w col hh hc
    obtain ⟨h', rfl⟩ : ∃ h', h = h' + 1 := ⟨h - 1, by omega⟩
    rw [List.range_succ_eq_map, List.flatMap_cons, Nat.zero_mul, Nat.zero_add,
      List.getElem?_append, if_pos (by simpa using hc), List.getElem?_map,
      List.getElem?_range hc]
    rfl
  | succ r ih =>
    intro f h w col hh hc
    obtain ⟨h', rfl⟩ : ∃ h', h = h' + 1 := ⟨h - 1, by omega⟩
    rw [List.range_succ_eq_map, List.flatMap_cons, List.flatMap_map,
      List.getElem?_append_right (by simp [Nat.succ_mul]; omega)]
    have hidx : (r + 1) * w + col - ((List.range w).map (fun c => f 0 c)).length
        = r * w + col := by simp [Nat.succ_mul]; omega
    rw [hidx]
    simpa using ih (fun a b => f (a + 1) b) h' w col (by omega) hc

end RowMajor

section FlatIndex

/-- A row-major flat index of an in-range cell is below `width * height`. -/
theorem flat_index_lt {w h row col : Nat} (hr : row < h) (hc : col < w) :
    row * w + col < w * h :=
  calc row * w + col < row * w + w := by omega
    _ = (row + 1) * w := (Nat.succ_mul row w).symm
    _ ≤ h * w := Nat.mul_le_mul_right w hr
    _ = w * h := Nat.mul_comm h w

/-- Row-major flat indexing is injective when the columns are in range. -/
theorem flat_index_inj {w row col row' col' : Nat} (hc : col < w) (hc' : col' < w)
    (h : row * w + col = row' * w + col') : row = row' ∧ col = col' := by
  have hw : 0 < w := Nat.lt_of_le_of_lt (Nat.zero_le _) hc
  have h1 : (row * w + col) % w = col := by
    rw [Nat.mul_comm, Nat.mul_add_mod]; exact Nat.mod_eq_of_lt hc
  have h2 : (row' * w + col') % w = col' := by
    rw [Nat.mul_comm, Nat.mul_add_mod]; exact Nat.mod_eq_of_lt hc'
  have hcol : col = col' := by rw [← h1, ← h2, h]
  subst hcol
  have hrow : row * w = row' * w := by omega
  exact ⟨Nat.eq_of_mul_eq_mul_right hw hrow, rfl⟩

end FlatIndex

section SetCells

/-- Inductive core of `set_cells` on a full-size buffer with in-range
coordinates: the fold succeeds, keeps the dimensions and the buffer size,
and the final buffer is `Alive` exactly at the supplied coordinates and
untouched elsewhere. -/
theorem set_cells_go (coords : List (Nat × Nat)) :
    ∀ u : Universe,
      u.cells.length = u.width * u.height →
      (∀ p ∈ coords, p.1 < u.height ∧ p.2 < u.width) →
      ∃ u', u.set_cells coords = some u' ∧
        u'.width = u.width ∧ u'.height = u.height ∧
        u'.cells.length = u.cells.length ∧
        ∀ row, row < u.height → ∀ col, col < u.width →
          u'.cells.getD (row * u.width + col) Cell.Dead =
            if (row, col) ∈ coords then Cell.Alive
            else u.cells.getD (row * u.width + col) Cell.Dead := by
  induction coords with
  | nil =>
    intro u hlen hin
    exact ⟨u, rfl, rfl, rfl, rfl, fun row _ col _ => by simp⟩
  | cons p rest ih =>
    rintro ⟨w, h, cs⟩ hlen hin
    simp only at hlen
    obtain ⟨hp1, hp2⟩ := hin p (List.mem_cons_self p rest)
    simp only at hp1 hp2
    have hidx : p.1 * w + p.2 < cs.length := by
      rw [hlen]; exact flat_index_lt hp1 hp2
    have hstep : (Universe.mk w h cs).set_cells (p :: rest) =
        (Universe.mk w h (cs.set (p.1 * w + p.2) Cell.Alive)).set_cells rest := by
      simp [Universe.set_cells, List.foldlM_cons, hidx, Universe.get_index]
    obtain ⟨u', hsome, hw', hh', hlen', hcells'⟩ :=
      ih (Universe.mk w h (cs.set (p.1 * w + p.2) Cell.Alive))
        (by simp [hlen]) (fun q hq => hin q (List.mem_cons_of_mem p hq))
    refine ⟨u', hstep.trans hsome, hw', hh', by simpa using hlen', ?_⟩
    intro row hr col hc
    simp only at hr hc
    have hmid := hcells' row hr col hc
    simp only at hmid
    rw [hmid]
    by_cases hpq : (row, col) = p
    · have hip : p.1 * w + p.2 = row * w + col := by rw [← hpq]
      have hval : (cs.set (p.1 * w + p.2) Cell.Alive).getD (row * w + col)
          Cell.Dead = Cell.Alive := by
        rw [List.getD_eq_getElem?_getD, List.getElem?_set, if_pos hip,
          if_pos hidx]
        rfl
      rw [hval]
      have hmem : (row, col) ∈ p :: rest := hpq ▸ List.mem_cons_self p rest
      rw [if_pos hmem]
      split <;> rfl
    · have hip : p.1 * w + p.2 ≠ row * w + col := by
        intro heq
        obtain ⟨e1, e2⟩ := flat_index_inj hp2 hc heq
        exact hpq (by rw [← e1, ← e2])
      have hval : (cs.set (p.1 * w + p.2) Cell.Alive).getD (row * w + col)
          Cell.Dead = cs.getD (row * w + col) Cell.Dead := by
        rw [List.getD_eq_getElem?_getD, List.getElem?_set, if_neg hip,
          ← List.getD_eq_getElem?_getD]
      rw [hval]
      have hiff : (row, col) ∈ p :: rest ↔ (row, col) ∈ rest := by
        simp [List.mem_cons, hpq]
      simp only [hiff]

/-- C5: with in-range coordinates on a full-size buffer, `set_cells`
succeeds, keeps the dimensions and the buffer size, sets exactly the named
cells to `Alive`, leaves every other cell unchanged, and never turns an
`Alive` cell `Dead`. -/
theorem set_cells_exact (u : Universe) (coords : List (Nat × Nat))
    (hlen : u.cells.length = u.width * u.height)
    (hin : ∀ p ∈ coords, p.1 < u.height ∧ p.2 < u.width) :
    ∃ u', u.set_cells coords = some u' ∧
      u'.width = u.width ∧ u'.height = u.height ∧
      u'.cells.length = u.cells.length ∧
      (∀ row, row < u.height → ∀ col, col < u.width →
        u'.cells.getD (row * u.width + col) Cell.Dead =
          if (row, col) ∈ coords then Cell.Alive
          else u.cells.getD (row * u.width + col) Cell.Dead) ∧
      (∀ row, row < u.height → ∀ col, col < u.width →
        u.cells.getD (row * u.width + col) Cell.Dead = Cell.Alive →
        u'.cells.getD (row * u.width + col) Cell.Dead = Cell.Alive) := by
  obtain ⟨u', h1, h2, h3, h4, h5⟩ := set_cells_go coords u hlen hin
  refine ⟨u', h1, h2, h3, h4, h5, ?_⟩
  intro row hr col hc halive
  rw [h5 row hr col hc]
  split
  · rfl
  · exact halive

/-- Witness for C5: seeding two cells of the all-dead 5×5 grid. -/
theorem set_cells_exact_witness :
    (deadFive.cells.length = deadFive.width * deadFive.height ∧
      ∀ p ∈ [((1, 1) : Nat × Nat), (0, 2)],
        p.1 < deadFive.height ∧ p.2 < deadFive.width) ∧
    (∃ u', deadFive.set_cells [(1, 1), (0, 2)] = some u' ∧
      u'.width = deadFive.width ∧ u'.height = deadFive.height ∧
      u'.cells.length = deadFive.cells.length ∧
      (∀ row, row < deadFive.height → ∀ col, col < deadFive.width →
        u'.cells.getD (row * deadFive.width + col) Cell.Dead =
          if (row, col) ∈ [((1, 1) : Nat × Nat), (0, 2)] then Cell.Alive
          else deadFive.cells.getD (row * deadFive.width + col) Cell.Dead) ∧
      (∀ row, row < deadFive.height → ∀ col, col < deadFive.width →
        deadFive.cells.getD (row * deadFive.width + col) Cell.Dead = Cell.Alive →
        u'.cells.getD (row * deadFive.width + col) Cell.Dead = Cell.Alive)) :=
  ⟨⟨by decide, by decide⟩,
    set_cells_exact deadFive [(1, 1), (0, 2)] (by decide) (by decide)⟩

/-- Inductive core for failure: on a full-size buffer, `set_cells` hits the
out-of-bounds panic exactly when some supplied coordinate's flat index
reaches the buffer length. -/
theorem set_cells_none_go (coords : List (Nat × Nat)) :
    ∀ u : Universe, u.cells.length = u.width * u.height →
      (u.set_cells coords = none ↔
        ∃ p ∈ coords, u.width * u.height ≤ p.1 * u.width + p.2) := by
  induction coords with
  | nil => intro u _; simp [Universe.set_cells]
  | cons p rest ih =>
    rintro ⟨w, h, cs⟩ hlen
    simp only at hlen
    by_cases hidx : p.1 * w + p.2 < cs.length
    · have hstep : (Universe.mk w h cs).set_cells (p :: rest) =
          (Universe.mk w h (cs.set (p.1 * w + p.2) Cell.Alive)).set_cells rest := by
        simp [Universe.set_cells, List.foldlM_cons, Universe.get_index, hidx]
      rw [hstep, ih (Universe.mk w h (cs.set (p.1 * w + p.2) Cell.Alive))
        (by simp [hlen])]
      simp only [List.mem_cons]
      constructor
      · rintro ⟨q, hq, hge⟩
        exact ⟨q, Or.inr hq, hge⟩
      · rintro ⟨q, hq | hq, hge⟩
        · subst hq; rw [hlen] at hidx; omega
        · exact ⟨q, hq, hge⟩
    · have hstep : (Universe.mk w h cs).set_cells (p :: rest) = none := by
        simp [Universe.set_cells, List.foldlM_cons, Universe.get_index, hidx]
      rw [hstep]
      simp only [true_iff]
      exact ⟨p, List.mem_cons_self p rest, by rw [← hlen]; omega⟩

/-- C6 counterexample: on the all-dead 5×5 grid the coordinate `(0, 7)` has
`column ≥ width`, yet `set_cells [(0, 7)]` succeeds (flat index 7 aliases
to the in-range cell `(1, 2)`), so an out-of-range coordinate is silently
accepted rather than failing. -/
theorem set_cells_oob_cex :
    deadFive.cells.length = deadFive.width * deadFive.height ∧
    deadFive.width ≤ 7 ∧
    deadFive.set_cells [(0, 7)] ≠ none := by decide

/-- C6 (amended): on a full-size buffer, `set_cells` fails with the
index-out-of-bounds panic exactly when some supplied coordinate's flat index
`row * width + column` reaches `width * height`; in particular any
coordinate with `row ≥ height` forces the failure, while a coordinate whose
flat index is still in range (e.g. `column ≥ width` with a small row) is
silently accepted. -/
theorem set_cells_oob (u : Universe) (coords : List (Nat × Nat))
    (hlen : u.cells.length = u.width * u.height) :
    (u.set_cells coords = none ↔
      ∃ p ∈ coords, u.width * u.height ≤ p.1 * u.width + p.2) ∧
    ((∃ p ∈ coords, u.height ≤ p.1) → u.set_cells coords = none) := by
  refine ⟨set_cells_none_go coords u hlen, ?_⟩
  rintro ⟨p, hmem, hge⟩
  rw [set_cells_none_go coords u hlen]
  refine ⟨p, hmem, ?_⟩
  calc u.width * u.height ≤ u.width * p.1 := Nat.mul_le_mul_left _ hge
    _ = p.1 * u.width := Nat.mul_comm _ _
    _ ≤ p.1 * u.width + p.2 := Nat.le_add_right _ _

/-- Witness for the amended C6: a row past the bottom of the 5×5 grid makes
`set_cells` fail. -/
theorem set_cells_oob_witness :
    (deadFive.cells.length = deadFive.width * deadFive.height ∧
      (∃ p ∈ [((9, 9) : Nat × Nat)], deadFive.height ≤ p.1)) ∧
    ((deadFive.set_cells [(9, 9)] = none ↔
      ∃ p ∈ [((9, 9) : Nat × Nat)],
        deadFive.width * deadFive.height ≤ p.1 * deadFive.width + p.2) ∧
     ((∃ p ∈ [((9, 9) : Nat × Nat)], deadFive.height ≤ p.1) →
       deadFive.set_cells [(9, 9)] = none)) :=
  ⟨⟨by decide, by decide⟩, set_cells_oob deadFive [(9, 9)] (by decide)⟩

end SetCells

/-- The source's sequential `match` agrees with the spec's rule table at
every state and count (the source's fall-through arm is unreachable for an
`Alive` cell). -/
theorem nextCell_eq_specRule (cell : Cell) (n : Nat) :
    Universe.nextCell cell n = specRule cell n := by
  cases cell <;> simp [Universe.nextCell, specRule] <;>
    split_ifs <;> first | rfl | omega

/-- With both dimensions at least 2, the literal offsets `height - 1` and
`width - 1` are nonzero, so the centre filter drops exactly the `(0, 0)`
pair and the code's fold coincides with the 8-term Moore sum. -/
theorem live_neighbour_count_eq_moore (u : Universe) (row col : Nat)
    (hh : 2 ≤ u.height) (hw : 2 ≤ u.width) :
    u.live_neighbour_count row col = mooreNeighbourCount u row col := by
  have h1 : u.height - 1 ≠ 0 := by omega
  have w1 : u.width - 1 ≠ 0 := by omega
  simp [Universe.live_neighbour_count, mooreNeighbourCount, iproduct, h1, w1]
  omega

section StillLife

theorem hitInd_le_one (r v : Nat) : hitInd r v ≤ 1 := by
  unfold hitInd; split <;> omega

theorem hitInd_eq_zero_or_one (r v : Nat) :
    hitInd r v = 0 ∨ hitInd r v = 1 := by
  unfold hitInd; split <;> omega

theorem hitInd_eq_one (r v : Nat) (hv : v = r ∨ v = r + 1) : hitInd r v = 1 := by
  unfold hitInd; rw [if_pos hv]

theorem hitInd_eq_zero (r v : Nat) (hv1 : v ≠ r) (hv2 : v ≠ r + 1) :
    hitInd r v = 0 := by
  unfold hitInd
  rw [if_neg]
  rintro (he | he)
  · exact hv1 he
  · exact hv2 he

/-- The wrapped `+1` offset of an in-range coordinate, resolved. -/
theorem succ_mod_resolve (x h : Nat) (hx : x < h) :
    (1 + x) % h = if x + 1 = h then 0 else x + 1 := by
  by_cases he : x + 1 = h
  · rw [if_pos he, Nat.add_comm, he, Nat.mod_self]
  · rw [if_neg he, Nat.add_comm]
    exact Nat.mod_eq_of_lt (show x + 1 < h by omega)

/-- The wrapped `-1` (encoded `h - 1`) offset of an in-range coordinate,
resolved. -/
theorem pred_mod_resolve (x h : Nat) (hx : x < h) :
    (h - 1 + x) % h = if x = 0 then h - 1 else x - 1 := by
  by_cases he : x = 0
  · subst he
    rw [if_pos rfl, Nat.add_zero]
    exact Nat.mod_eq_of_lt (show h - 1 < h by omega)
  · rw [if_neg he]
    have harith : h - 1 + x = h + (x - 1) := by omega
    rw [harith, Nat.add_mod_left]
    exact Nat.mod_eq_of_lt (show x - 1 < h by omega)

/-- For a coordinate inside the band of a non-wrapping 2×2 block on a grid
of size at least 4, exactly one of its two wrapped vertical neighbours is
still in the band. -/
theorem hit_sum_in (h r x : Nat) (h4 : 4 ≤ h) (hr : r + 1 < h) (hx : x < h)
    (hin : x = r ∨ x = r + 1) :
    hitInd r ((h - 1 + x) % h) + hitInd r ((1 + x) % h) = 1 := by
  rw [pred_mod_resolve x h hx, succ_mod_resolve x h hx]
  cases hin with
  | inl he =>
    rw [he, if_neg (show ¬(r + 1 = h) by omega),
      hitInd_eq_one r (r + 1) (Or.inr rfl)]
    by_cases h0 : r = 0
    · rw [if_pos h0, hitInd_eq_zero r (h - 1) (by omega) (by omega)]
    · rw [if_neg h0, hitInd_eq_zero r (r - 1) (by omega) (by omega)]
  | inr he =>
    rw [he, if_neg (show ¬(r + 1 = 0) by omega), Nat.add_sub_cancel,
      hitInd_eq_one r r (Or.inl rfl)]
    by_cases h2 : r + 1 + 1 = h
    · rw [if_pos h2, hitInd_eq_zero r 0 (by omega) (by omega)]
    · rw [if_neg h2, hitInd_eq_zero r (r + 1 + 1) (by omega) (by omega)]

/-- A `Dead` cell with a neighbour count other than 3 stays `Dead`. -/
theorem nextCell_dead_of_ne_three (n : Nat) (hn : n ≠ 3) :
    Universe.nextCell Cell.Dead n = Cell.Dead := by
  simp [Universe.nextCell, hn]

/-- C8: a grid of width and height at least 4 whose only live cells are a
non-wrapping 2×2 block (rows `r, r + 1`, columns `c, c + 1`) is a fixed
point of `tick`: each block cell has exactly 3 live neighbours and
survives, and every dead cell sees a neighbour count in `{0, 1, 2, 4}`,
never 3, so no birth occurs. -/
theorem tick_block_still_life (u : Universe) (r c : Nat)
    (hw : 4 ≤ u.width) (hh : 4 ≤ u.height)
    (hr : r + 1 < u.height) (hc : c + 1 < u.width)
    (hlen : u.cells.length = u.width * u.height)
    (hcells : ∀ row, row < u.height → ∀ col, col < u.width →
      u.cells.getD (row * u.width + col) Cell.Dead =
        if (row = r ∨ row = r + 1) ∧ (col = c ∨ col = c + 1)
        then Cell.Alive else Cell.Dead) :
    u.tick = u := by
  obtain ⟨w, h, cs⟩ := u
  simp only at hw hh hr hc hlen hcells
  have hval : ∀ row, row < h → ∀ col, col < w →
      cellVal (cs.getD (row * w + col) Cell.Dead) =
        hitInd r row * hitInd c col := by
    intro row hrow col hcol
    rw [hcells row hrow col hcol]
    unfold hitInd
    by_cases h1 : row = r ∨ row = r + 1 <;>
      by_cases h2 : col = c ∨ col = c + 1 <;>
      simp [h1, h2, cellVal]
  have hsum : ∀ row, row < h → ∀ col, col < w →
      (Universe.mk w h cs).live_neighbour_count row col =
        hitInd r ((h - 1 + row) % h) * hitInd c ((w - 1 + col) % w)
      + hitInd r ((h - 1 + row) % h) * hitInd c col
      + hitInd r ((h - 1 + row) % h) * hitInd c ((1 + col) % w)
      + hitInd r row * hitInd c ((w - 1 + col) % w)
      + hitInd r row * hitInd c ((1 + col) % w)
      + hitInd r ((1 + row) % h) * hitInd c ((w - 1 + col) % w)
      + hitInd r ((1 + row) % h) * hitInd c col
      + hitInd r ((1 + row) % h) * hitInd c ((1 + col) % w) := by
    intro row hrow col hcol
    rw [live_neighbour_count_eq_moore (Universe.mk w h cs) row col
      (show 2 ≤ h by omega) (show 2 ≤ w by omega)]
    have hrm : (h - 1 + row) % h < h := Nat.mod_lt _ (by omega)
    have hrp : (1 + row) % h < h := Nat.mod_lt _ (by omega)
    have hcm : (w - 1 + col) % w < w := Nat.mod_lt _ (by omega)
    have hcp : (1 + col) % w < w := Nat.mod_lt _ (by omega)
    simp only [mooreNeighbourCount, Universe.get_index, List.map_cons,
      List.map_nil, List.sum_cons, List.sum_nil, Nat.zero_add, Nat.add_zero,
      Nat.mod_eq_of_lt hrow, Nat.mod_eq_of_lt hcol]
    rw [hval _ hrm _ hcm, hval _ hrm _ hcol, hval _ hrm _ hcp,
      hval _ hrow _ hcm, hval _ hrow _ hcp,
      hval _ hrp _ hcm, hval _ hrp _ hcol, hval _ hrp _ hcp]
    omega
  have hnext : ∀ row, row < h → ∀ col, col < w →
      Universe.nextCell (cs.getD (row * w + col) Cell.Dead)
        ((Universe.mk w h cs).live_neighbour_count row col) =
      cs.getD (row * w + col) Cell.Dead := by
    intro row hrow col hcol
    rw [hsum row hrow col hcol, hcells row hrow col hcol]
    have hb1 := hitInd_le_one r ((h - 1 + row) % h)
    have hb3 := hitInd_le_one r ((1 + row) % h)
    have hd1 := hitInd_le_one c ((w - 1 + col) % w)
    have hd3 := hitInd_le_one c ((1 + col) % w)
    by_cases hrin : row = r ∨ row = r + 1
    · have hra := hit_sum_in h r row hh hr hrow hrin
      have hr2 : hitInd r row = 1 := by unfold hitInd; rw [if_pos hrin]
      by_cases hcin : col = c ∨ col = c + 1
      · -- block cell: exactly 3 live neighbours, stays Alive
        have hca := hit_sum_in w c col hw hc hcol hcin
        have hc2 : hitInd c col = 1 := by unfold hitInd; rw [if_pos hcin]
        rw [if_pos ⟨hrin, hcin⟩]
        have hcnt :
            hitInd r ((h - 1 + row) % h) * hitInd c ((w - 1 + col) % w)
          + hitInd r ((h - 1 + row) % h) * hitInd c col
          + hitInd r ((h - 1 + row) % h) * hitInd c ((1 + col) % w)
          + hitInd r row * hitInd c ((w - 1 + col) % w)
          + hitInd r row * hitInd c ((1 + col) % w)
          + hitInd r ((1 + row) % h) * hitInd c ((w - 1 + col) % w)
          + hitInd r ((1 + row) % h) * hitInd c col
          + hitInd r ((1 + row) % h) * hitInd c ((1 + col) % w) = 3 := by
          calc _ = (hitInd r ((h - 1 + row) % h) + hitInd r ((1 + row) % h))
                    * (hitInd c ((w - 1 + col) % w) + hitInd c ((1 + col) % w))
                + (hitInd r ((h - 1 + row) % h) + hitInd r ((1 + row) % h))
                    * hitInd c col
                + hitInd r row
                    * (hitInd c ((w - 1 + col) % w) + hitInd c ((1 + col) % w)) := by
                  ring
            _ = 3 := by rw [hra, hca, hr2, hc2]
        rw [hcnt]
        decide
      · -- dead cell in the block's rows: count is even, never 3
        have hc2 : hitInd c col = 0 := by unfold hitInd; rw [if_neg hcin]
        rw [if_neg (fun hand => hcin hand.2)]
        have hcnt :
            hitInd r ((h - 1 + row) % h) * hitInd c ((w - 1 + col) % w)
          + hitInd r ((h - 1 + row) % h) * hitInd c col
          + hitInd r ((h - 1 + row) % h) * hitInd c ((1 + col) % w)
          + hitInd r row * hitInd c ((w - 1 + col) % w)
          + hitInd r row * hitInd c ((1 + col) % w)
          + hitInd r ((1 + row) % h) * hitInd c ((w - 1 + col) % w)
          + hitInd r ((1 + row) % h) * hitInd c col
          + hitInd r ((1 + row) % h) * hitInd c ((1 + col) % w)
            = 2 * (hitInd c ((w - 1 + col) % w) + hitInd c ((1 + col) % w)) := by
          calc _ = (hitInd r ((h - 1 + row) % h) + hitInd r ((1 + row) % h))
                    * (hitInd c ((w - 1 + col) % w) + hitInd c ((1 + col) % w))
                + (hitInd r ((h - 1 + row) % h) + hitInd r ((1 + row) % h))
                    * hitInd c col
                + hitInd r row
                    * (hitInd c ((w - 1 + col) % w) + hitInd c ((1 + col) % w)) := by
                  ring
            _ = _ := by rw [hra, hc2, hr2]; ring
        rw [hcnt]
        exact nextCell_dead_of_ne_three
          (2 * (hitInd c ((w - 1 + col) % w) + hitInd c ((1 + col) % w)))
          (by omega)
    · have hr2 : hitInd r row = 0 := by unfold hitInd; rw [if_neg hrin]
      rw [if_neg (fun hand => hrin hand.1)]
      by_cases hcin : col = c ∨ col = c + 1
      · -- dead cell in the block's columns: count is even, never 3
        have hca := hit_sum_in w c col hw hc hcol hcin
        have hc2 : hitInd c col = 1 := by unfold hitInd; rw [if_pos hcin]
        have hcnt :
            hitInd r ((h - 1 + row) % h) * hitInd c ((w - 1 + col) % w)
          + hitInd r ((h - 1 + row) % h) * hitInd c col
          + hitInd r ((h - 1 + row) % h) * hitInd c ((1 + col) % w)
          + hitInd r row * hitInd c ((w - 1 + col) % w)
          + hitInd r row * hitInd c ((1 + col) % w)
          + hitInd r ((1 + row) % h) * hitInd c ((w - 1 + col) % w)
          + hitInd r ((1 + row) % h) * hitInd c col
          + hitInd r ((1 + row) % h) * hitInd c ((1 + col) % w)
            = 2 * (hitInd r ((h - 1 + row) % h) + hitInd r ((1 + row) % h)) := by
          calc _ = (hitInd r ((h - 1 + row) % h) + hitInd r ((1 + row) % h))
                    * (hitInd c ((w - 1 + col) % w) + hitInd c ((1 + col) % w))
                + (hitInd r ((h - 1 + row) % h) + hitInd r ((1 + row) % h))
                    * hitInd c col
                + hitInd r row
                    * (hitInd c ((w - 1 + col) % w) + hitInd c ((1 + col) % w)) := by
                  ring
            _ = _ := by rw [hca, hc2, hr2]; ring
        rw [hcnt]
        exact nextCell_dead_of_ne_three
          (2 * (hitInd r ((h - 1 + row) % h) + hitInd r ((1 + row) % h)))
          (by omega)
      · -- dead cell away from the block: count is a product of values ≤ 2
        have hc2 : hitInd c col = 0 := by unfold hitInd; rw [if_neg hcin]
        rcases hitInd_eq_zero_or_one r ((h - 1 + row) % h) with h1 | h1 <;>
          rcases hitInd_eq_zero_or_one r ((1 + row) % h) with h3 | h3 <;>
          rcases hitInd_eq_zero_or_one c ((w - 1 + col) % w) with g1 | g1 <;>
          rcases hitInd_eq_zero_or_one c ((1 + col) % w) with g3 | g3 <;>
          rw [h1, h3, g1, g3, hr2, hc2] <;> decide
  -- assemble the whole-grid equality
  simp only [Universe.tick, Universe.get_index, Universe.mk.injEq, true_and]
  apply List.ext_getElem?
  intro i
  by_cases hi : i < h * w
  · have hrow : i / w < h := by
      rw [Nat.div_lt_iff_lt_mul (by omega : 0 < w)]
      omega
    have hcol : i % w < w := Nat.mod_lt _ (by omega)
    have hidx : (i / w) * w + i % w = i := by
      rw [Nat.mul_comm]
      exact Nat.div_add_mod i w
    have hlt : i < cs.length := by rw [hlen, Nat.mul_comm]; exact hi
    rw [← hidx, rowMajor_getElem? (i / w)
      (fun a b => Universe.nextCell (cs.getD (a * w + b) Cell.Dead)
        ((Universe.mk w h cs).live_neighbour_count a b)) h w (i % w) hrow hcol,
      hnext (i / w) hrow (i % w) hcol, List.getD_eq_getElem?_getD,
      List.getElem?_eq_getElem (show i / w * w + i % w < cs.length by
        rw [hidx]; exact hlt)]
    rfl
  · have hlen1 : ((List.range h).flatMap (fun row => (List.range w).map
        (fun col => Universe.nextCell (cs.getD (row * w + col) Cell.Dead)
          ((Universe.mk w h cs).live_neighbour_count row col)))).length
        = h * w := rowMajor_length h w _
    rw [List.getElem?_eq_none (by rw [hlen1]; omega),
      List.getElem?_eq_none (by rw [hlen, Nat.mul_comm]; omega)]

end StillLife

/-- Witness for C8: the 4×4 grid with the 2×2 block at rows 1–2,
columns 1–2 is unchanged by `tick`. -/
theorem tick_block_still_life_witness :
    (4 ≤ blockFour.width ∧ 4 ≤ blockFour.height ∧
      1 + 1 < blockFour.height ∧ 1 + 1 < blockFour.width ∧
      blockFour.cells.length = blockFour.width * blockFour.height ∧
      ∀ row, row < blockFour.height → ∀ col, col < blockFour.width →
        blockFour.cells.getD (row * blockFour.width + col) Cell.Dead =
          if (row = 1 ∨ row = 1 + 1) ∧ (col = 1 ∨ col = 1 + 1)
          then Cell.Alive else Cell.Dead) ∧
    blockFour.tick = blockFour :=
  ⟨⟨by decide, by decide, by decide, by decide, by decide, by decide⟩,
    tick_block_still_life blockFour 1 1 (by decide) (by decide) (by decide)
      (by decide) (by decide) (by decide)⟩

section Render

/-- The first `w` elements of a buffer of length at least `w`, as a map over
column indices. -/
theorem take_eq_map_range (w : Nat) (l : List Cell) (hlen : w ≤ l.length) :
    l.take w = (List.range w).map (fun col => l.getD col Cell.Dead) := by
  apply List.ext_getElem?
  intro j
  rw [List.getElem?_take]
  by_cases hj : j < w
  · rw [if_pos hj]
    simp [List.getElem?_map, List.getElem?_range hj,
      List.getD_eq_getElem?_getD,
      List.getElem?_eq_getElem (show j < l.length by omega)]
  · rw [if_neg hj, List.getElem?_eq_none (by simpa using by omega)]

/-- `slice::chunks` of a buffer of exactly `h * w` cells: `h` rows of `w`
entries each, in row-major order. -/
theorem chunks_eq_rows (w : Nat) (hw : 0 < w) :
    ∀ (h : Nat) (l : List Cell), l.length = h * w →
      Universe.chunks w l = (List.range h).map
        (fun row => (List.range w).map
          (fun col => l.getD (row * w + col) Cell.Dead)) := by
  intro h
  induction h with
  | zero =>
    intro l hl
    have hnil : l = [] := List.eq_nil_of_length_eq_zero (by simpa using hl)
    subst hnil
    simp [Universe.chunks]
  | succ n ih =>
    intro l hl
    rw [Nat.succ_mul] at hl
    cases l with
    | nil => exfalso; simp at hl; omega
    | cons a as =>
      rw [Universe.chunks, dif_neg (show ¬w = 0 by omega)]
      have hdl : ((a :: as).drop w).length = n * w := by
        rw [List.length_drop, hl]
        omega
      rw [ih ((a :: as).drop w) hdl,
        take_eq_map_range w (a :: as) (by rw [hl]; omega),
        List.range_succ_eq_map, List.map_cons, List.map_map]
      congr 1
      · apply List.map_congr_left
        intro col _
        simp
      · apply List.map_congr_left
        intro row _
        simp only [Function.comp, Nat.succ_eq_add_one]
        apply List.map_congr_left
        intro col _
        rw [List.getD_eq_getElem?_getD, List.getD_eq_getElem?_getD,
          List.getElem?_drop]
        congr 2
        have hsm : (row + 1) * w = row * w + w := Nat.succ_mul row w
        omega

/-- C9: on a grid with positive dimensions and a full buffer, `render`
produces, for each of the `height` rows in row-major order, the `width`
glyphs of that row (`'◻'` for a `Dead` cell, `'◼'` for an `Alive` cell)
followed by one line break; in this embedding `render` is a pure function
of the universe and leaves it unchanged. -/
theorem render_structure (u : Universe)
    (hw : 0 < u.width) (hh : 0 < u.height)
    (hlen : u.cells.length = u.width * u.height) :
    (u.render).data = (List.range u.height).flatMap (fun row =>
      (List.range u.width).map (fun col =>
        Universe.glyph (u.cells.getD (row * u.width + col) Cell.Dead))
      ++ ['\n']) := by
  obtain ⟨w, h, cs⟩ := u
  simp only at hw hh hlen ⊢
  rw [List.flatMap_def]
  simp only [Universe.render, String.join_eq]
  rw [chunks_eq_rows w hw h cs (by rw [hlen]; exact Nat.mul_comm w h)]
  simp only [List.map_map]
  congr 1
  apply List.map_congr_left
  intro row _
  simp only [Function.comp]
  rw [String.data_append]
  simp [List.map_map, Function.comp]

end Render

/-- Witness for C9 at the 2×2 diagonal fixture. -/
theorem render_structure_witness :
    (0 < twoByTwo.width ∧ 0 < twoByTwo.height ∧
      twoByTwo.cells.length = twoByTwo.width * twoByTwo.height) ∧
    (twoByTwo.render).data = (List.range twoByTwo.height).flatMap (fun row =>
      (List.range twoByTwo.width).map (fun col =>
        Universe.glyph (twoByTwo.cells.getD (row * twoByTwo.width + col)
          Cell.Dead))
      ++ ['\n']) :=
  ⟨⟨by decide, by decide, by decide⟩,
    render_structure twoByTwo (by decide) (by decide) (by decide)⟩

/-- C2: one `tick` of the 5×5 fixture yields exactly the expected row-major
buffer, bit for bit. -/
theorem tick_testUniverse_cells : (testUniverse.tick).cells = [
      Cell.Dead,  Cell.Dead,  Cell.Dead,  Cell.Dead,  Cell.Dead,
      Cell.Dead,  Cell.Alive, Cell.Dead,  Cell.Dead,  Cell.Dead,
      Cell.Dead,  Cell.Dead,  Cell.Alive, Cell.Alive, Cell.Dead,
      Cell.Dead,  Cell.Dead,  Cell.Dead,  Cell.Alive, Cell.Dead,
      Cell.Dead,  Cell.Dead,  Cell.Dead,  Cell.Dead,  Cell.Dead] := by decide

/-- C1: for every grid with positive dimensions and a full-size buffer,
`tick` keeps the dimensions, replaces the buffer by one of length
`height * width`, and the new cell at flat index `row * width + col` is the
B3/S23 rule applied to that cell's pre-tick state and its pre-tick
`live_neighbour_count`; no entry depends on an updated cell. -/
theorem tick_applies_rule_to_snapshot (u : Universe)
    (hw : 0 < u.width) (hh : 0 < u.height)
    (hlen : u.cells.length = u.width * u.height) :
    u.tick.width = u.width ∧ u.tick.height = u.height ∧
    u.tick.cells.length = u.height * u.width ∧
    ∀ row, row < u.height → ∀ col, col < u.width →
      u.tick.cells[row * u.width + col]? =
        some (specRule (u.cells.getD (u.get_index row col) Cell.Dead)
          (u.live_neighbour_count row col)) := by
  refine ⟨rfl, rfl, rowMajor_length _ _ _, ?_⟩
  intro row hr col hc
  show ((List.range u.height).flatMap
      (fun r => (List.range u.width).map (fun c =>
        Universe.nextCell (u.cells.getD (u.get_index r c) Cell.Dead)
          (u.live_neighbour_count r c))))[row * u.width + col]? = _
  rw [rowMajor_getElem? row
    (fun r c => Universe.nextCell (u.cells.getD (u.get_index r c) Cell.Dead)
      (u.live_neighbour_count r c)) u.height u.width col hr hc,
    nextCell_eq_specRule]

/-- C3 counterexample: on a 3×1 grid (positive dimensions, full buffer) the
code's `live_neighbour_count` at `(0, 0)` disagrees with the 8-term Moore
neighbour sum: with `height = 1` the offset `height - 1` collapses to the
literal `0`, so the centre filter drops two offset pairs instead of one and
only 7 terms are summed. -/
theorem live_neighbour_count_height_one_cex :
    0 < flatRowUniverse.width ∧ 0 < flatRowUniverse.height ∧
    flatRowUniverse.cells.length =
      flatRowUniverse.width * flatRowUniverse.height ∧
    flatRowUniverse.live_neighbour_count 0 0 ≠
      mooreNeighbourCount flatRowUniverse 0 0 := by decide

/-- C3 (amended to `height ≥ 2` and `width ≥ 2`): `live_neighbour_count`
equals the number of `Alive` cells among the 8 Moore neighbours, positions
wrapped modulo the dimensions, the cell itself excluded; the result is at
most 8. -/
theorem live_neighbour_count_correct (u : Universe) (row col : Nat)
    (hh : 2 ≤ u.height) (hw : 2 ≤ u.width)
    (hlen : u.cells.length = u.width * u.height)
    (hr : row < u.height) (hc : col < u.width) :
    u.live_neighbour_count row col = mooreNeighbourCount u row col ∧
    u.live_neighbour_count row col ≤ 8 := by
  have key := live_neighbour_count_eq_moore u row col hh hw
  refine ⟨key, ?_⟩
  rw [key]
  have hb : ∀ c : Cell, cellVal c ≤ 1 := by intro c; cases c <;> simp [cellVal]
  calc (mooreNeighbourCount u row col)
      ≤ ([(u.height - 1, u.width - 1), (u.height - 1, 0), (u.height - 1, 1),
          (0, u.width - 1), (0, 1),
          (1, u.width - 1), (1, 0), (1, 1)].map
            (fun p : Nat × Nat => cellVal (u.cells.getD
              (u.get_index ((p.1 + row) % u.height)
                ((p.2 + col) % u.width)) Cell.Dead))).length • 1 := by
        apply List.sum_le_card_nsmul
        intro x hx
        simp only [List.mem_map] at hx
        obtain ⟨p, _, rfl⟩ := hx
        exact hb _
    _ = 8 := by simp

/-- Witness for the amended C3 at the 5×5 fixture. -/
theorem live_neighbour_count_correct_witness :
    (2 ≤ testUniverse.height ∧ 2 ≤ testUniverse.width ∧
      testUniverse.cells.length = testUniverse.width * testUniverse.height ∧
      1 < testUniverse.height ∧ 1 < testUniverse.width) ∧
    (testUniverse.live_neighbour_count 1 1 = mooreNeighbourCount testUniverse 1 1 ∧
      testUniverse.live_neighbour_count 1 1 ≤ 8) :=
  ⟨⟨by decide, by decide, by decide, by decide, by decide⟩,
    live_neighbour_count_correct testUniverse 1 1 (by decide) (by decide)
      (by decide) (by decide) (by decide)⟩

/-- C4: the size invariant `cells.length = width * height` is preserved by
`tick` (which also keeps both dimensions) and holds immediately after
`set_width` and after `set_height`. -/
theorem size_invariant_preserved (u : Universe) (n m : Nat)
    (hlen : u.cells.length = u.width * u.height) :
    (u.tick.cells.length = u.tick.width * u.tick.height ∧
      u.tick.width = u.width ∧ u.tick.height = u.height) ∧
    (u.set_width n).cells.length = (u.set_width n).width * (u.set_width n).height ∧
    (u.set_height m).cells.length = (u.set_height m).width * (u.set_height m).height := by
  refine ⟨⟨?_, rfl, rfl⟩, by simp [Universe.set_width], by simp [Universe.set_height]⟩
  show ((List.range u.height).flatMap _).length = u.width * u.height
  rw [rowMajor_length]
  exact Nat.mul_comm _ _

/-- Witness for C4 at the 5×5 fixture. -/
theorem size_invariant_preserved_witness :
    testUniverse.cells.length = testUniverse.width * testUniverse.height ∧
    ((testUniverse.tick.cells.length = testUniverse.tick.width * testUniverse.tick.height ∧
       testUniverse.tick.width = testUniverse.width ∧
       testUniverse.tick.height = testUniverse.height) ∧
     (testUniverse.set_width 3).cells.length =
       (testUniverse.set_width 3).width * (testUniverse.set_width 3).height ∧
     (testUniverse.set_height 2).cells.length =
       (testUniverse.set_height 2).width * (testUniverse.set_height 2).height) :=
  ⟨by decide, size_invariant_preserved testUniverse 3 2 (by decide)⟩

/-- C7: `set_width n` keeps the height, reallocates the buffer to length
`n * height`, and makes every cell `Dead`; `set_height m` keeps the width,
reallocates to length `width * m`, all cells `Dead`. No prior live cell
survives. -/
theorem resize_resets_state (u : Universe) (n m : Nat) :
    (u.set_width n).height = u.height ∧
    (u.set_width n).cells.length = n * u.height ∧
    (∀ cell ∈ (u.set_width n).cells, cell = Cell.Dead) ∧
    (u.set_height m).width = u.width ∧
    (u.set_height m).cells.length = u.width * m ∧
    (∀ cell ∈ (u.set_height m).cells, cell = Cell.Dead) := by
  refine ⟨rfl, by simp [Universe.set_width], ?_, rfl,
    by simp [Universe.set_height], ?_⟩ <;>
    · intro cell hcell
      simp [Universe.set_width, Universe.set_height] at hcell
      exact hcell.2

/-- C10: on a degenerate grid (zero width or zero height, hence an empty
buffer), `tick` is total and leaves the universe unchanged: the per-cell
row-major loop is empty, so no neighbour count (and no modulo by zero) is
ever taken. -/
theorem tick_degenerate_identity (u : Universe)
    (hdeg : u.width = 0 ∨ u.height = 0)
    (hlen : u.cells.length = u.width * u.height) :
    u.tick = u := by
  obtain ⟨w, h, cs⟩ := u
  simp only at hdeg hlen
  have hnil : cs = [] := by
    apply List.eq_nil_of_length_eq_zero
    rcases hdeg with h0 | h0 <;> simp [hlen, h0]
  subst hnil
  simp only [Universe.tick, Universe.mk.injEq, true_and]
  rcases hdeg with h0 | h0 <;> simp [h0, List.flatMap_eq_nil_iff]

/-- Witness for C10 at a 5-wide, 0-tall universe. -/
theorem tick_degenerate_identity_witness :
    (emptyUniverse.width = 0 ∨ emptyUniverse.height = 0) ∧
    emptyUniverse.cells.length = emptyUniverse.width * emptyUniverse.height ∧
    emptyUniverse.tick = emptyUniverse :=
  ⟨by decide, by decide,
    tick_degenerate_identity emptyUniverse (by decide) (by decide)⟩

/-- Witness for C1 at the 5×5 fixture: the hypotheses hold and so does the
conclusion. -/
theorem tick_applies_rule_to_snapshot_witness :
    (0 < testUniverse.width ∧ 0 < testUniverse.height ∧
      testUniverse.cells.length = testUniverse.width * testUniverse.height) ∧
    (testUniverse.tick.width = testUniverse.width ∧
     testUniverse.tick.height = testUniverse.height ∧
     testUniverse.tick.cells.length = testUniverse.height * testUniverse.width ∧
     ∀ row, row < testUniverse.height → ∀ col, col < testUniverse.width →
       testUniverse.tick.cells[row * testUniverse.width + col]? =
         some (specRule
           (testUniverse.cells.getD (testUniverse.get_index row col) Cell.Dead)
           (testUniverse.live_neighbour_count row col))) :=
  ⟨⟨by decide, by decide, by decide⟩,
    tick_applies_rule_to_snapshot testUniverse (by decide) (by decide) (by decide)⟩
